import Mathlib

/-!
Verification of the segmentation / flagging / merging pipeline of the
Unauthorized-Language-Check repository (`src/main.py`).

The development shallowly embeds the pure core of the program:

* `merge_contiguous_segments`  — the contiguous-flagged-segment merge engine
  (src/main.py lines 52-107);
* `classify`                   — the per-segment flagging policy extracted from
  the orchestrator loop (src/main.py lines 319-328);
* `detect_speech_segments`     — the silence-gap segmenter (lines 109-142),
  with the external audio collaborator's output (`detect_nonsilent`) abstracted
  as data carried by the file model;
* `processSegments` / `processFile` / `runBatch` — the batch orchestrator
  `process_and_flag_audios` (lines 219-476), with the external effects
  (decoding, transcription, clip export) abstracted as per-file data.

Machine integers of the source are modelled as `Int`, Python floats that are
only ever averaged and compared as `Rat`.
-/

namespace ULC

/-- One entry of `file_segments_info` as consumed by
`merge_contiguous_segments`: the fields the merge engine reads
(`start_ms`, `end_ms`, `is_flagged`). -/
structure Segment where
  start_ms : Int
  end_ms : Int
  is_flagged : Bool
deriving DecidableEq

instance : Inhabited Segment := ⟨⟨0, 0, false⟩⟩

/-- Default pair used for the (unreachable) empty-group lookups; the source
indexes `current_group[0]` / `current_group[-1]` only on non-empty groups. -/
def dflt : Nat × Segment := (0, ⟨0, 0, false⟩)

/-- The sort key of `flagged_segments.sort(key=lambda x: x[1]['start_ms'])`. -/
def segLE (a b : Nat × Segment) : Prop := a.2.start_ms ≤ b.2.start_ms

instance : DecidableRel segLE :=
  fun a b => inferInstanceAs (Decidable (a.2.start_ms ≤ b.2.start_ms))

instance : IsTotal (Nat × Segment) segLE :=
  ⟨fun a b => Int.le_total a.2.start_ms b.2.start_ms⟩

instance : IsTrans (Nat × Segment) segLE :=
  ⟨fun _ _ _ h h' => le_trans h h'⟩

/-- The flagged segments paired with their original indices (the
`enumerate` + filter of the source) and sorted by `start_ms` ascending.
Python's `list.sort` is stable; `List.insertionSort` with a `≤` key
comparison is the standard stable model of it. -/
def sortedFlagged (segments_info : List Segment) : List (Nat × Segment) :=
  List.insertionSort segLE ((segments_info.enum).filter (fun p => p.2.is_flagged))

/-- Closing a group: the source emits
`(current_group[0][1]['start_ms'], current_group[-1][1]['end_ms'], indices)`. -/
def emitGroup (grp : List (Nat × Segment)) : Int × Int × List Nat :=
  ((grp.headD dflt).2.start_ms, (grp.getLastD dflt).2.end_ms, grp.map Prod.fst)

/-- The walk over the sorted flagged list (the `for` loop of the source).
`grp` is `current_group`; the gap test compares the incoming segment's
`start_ms` against the `end_ms` of the last segment added to the group. -/
def mergeRun (max_gap_ms : Int) :
    List (Nat × Segment) → List (Nat × Segment) → List (Int × Int × List Nat)
  | [], grp => [emitGroup grp]
  | p :: rest, grp =>
    if p.2.start_ms - (grp.getLastD dflt).2.end_ms ≤ max_gap_ms then
      mergeRun max_gap_ms rest (grp ++ [p])
    else
      emitGroup grp :: mergeRun max_gap_ms rest [p]

/-- `merge_contiguous_segments` (src/main.py lines 52-107).  Returns the merged
ranges `(start_ms, end_ms, segment_indices)`.  The two early returns of the
source (empty input, no flagged segment) are both the `[]` case of the sorted
flagged list. -/
def merge_contiguous_segments (segments_info : List Segment) (max_gap_ms : Int) :
    List (Int × Int × List Nat) :=
  match sortedFlagged segments_info with
  | [] => []
  | p :: rest => mergeRun max_gap_ms rest [p]

/-! ### Grouping skeleton of the merge walk

`chunkRun` is the same walk as `mergeRun` but keeps the groups themselves
instead of the emitted triples; it exists only to state and prove structural
properties of the merge. -/

/-- Same recursion as `mergeRun`, returning the groups. -/
def chunkRun (max_gap_ms : Int) :
    List (Nat × Segment) → List (Nat × Segment) → List (List (Nat × Segment))
  | [], grp => [grp]
  | p :: rest, grp =>
    if p.2.start_ms - (grp.getLastD dflt).2.end_ms ≤ max_gap_ms then
      chunkRun max_gap_ms rest (grp ++ [p])
    else
      grp :: chunkRun max_gap_ms rest [p]

/-- The groups the merge walk builds. -/
def mergeChunks (segments_info : List Segment) (max_gap_ms : Int) :
    List (List (Nat × Segment)) :=
  match sortedFlagged segments_info with
  | [] => []
  | p :: rest => chunkRun max_gap_ms rest [p]

/-- The within-group relation: consecutive members of one group pass the gap
test (chained-gap semantics). -/
def gapLE (g : Int) (a b : Nat × Segment) : Prop :=
  b.2.start_ms - a.2.end_ms ≤ g

/-- The between-group relation: the first segment of the next group failed the
gap test against the last segment of the previous group. -/
def chunkGapGT (g : Int) (c d : List (Nat × Segment)) : Prop :=
  (d.headD dflt).2.start_ms - (c.getLastD dflt).2.end_ms > g

instance (g : Int) : DecidableRel (gapLE g) :=
  fun _ _ => inferInstanceAs (Decidable (_ ≤ _))

instance (g : Int) : DecidableRel (chunkGapGT g) :=
  fun _ _ => inferInstanceAs (Decidable (_ > _))

/-- The merge example of the specification, as `file_segments_info` input. -/
def exampleSegments : List Segment :=
  [⟨0, 1000, true⟩, ⟨1200, 1800, true⟩, ⟨5000, 5500, true⟩]

/-- Stability statement for the sort: among the sorted flagged pairs, an
earlier pair either has a strictly smaller key or the same key and a smaller
original index. -/
def stableLT (a b : Nat × Segment) : Prop :=
  a.2.start_ms < b.2.start_ms ∨ (a.2.start_ms = b.2.start_ms ∧ a.1 < b.1)

instance : DecidableRel stableLT :=
  fun _ _ => inferInstanceAs (Decidable (_ ∨ _))

/-- `start_ms` of the segment of `l` at index `i`. -/
def startAt (l : List Segment) (i : Nat) : Int := (l.getD i default).start_ms

/-! ### Segment classifier (src/main.py lines 313-328) -/

/-- The `flag_reason` strings of the source as a tagged type; the payloads
carry exactly what the formatted strings carry (the detected language for a
language mismatch, the numeric score for low confidence, the exception text
for the two error reasons).  `noFlag` is the unflagged case, rendered as
`"N/A"` in the report. -/
inductive FlagReason
  | noFlag
  | langMismatch (language : String)
  | lowConfidence (score : Rat)
  | noSpeech
  | transcriptionError (msg : String)
  | processingError (msg : String)
deriving DecidableEq

/-- Discriminator for the file-level `"Processing Error: …"` reason. -/
def FlagReason.isProcessingError : FlagReason → Bool
  | .processingError _ => true
  | _ => false

/-- The per-segment flagging policy (src/main.py lines 319-328):
`if language not in authorized_languages` flag a language mismatch, `elif
confidence < confidence_threshold` flag low confidence, else unflagged. -/
def classify (language : String) (confidence : Rat)
    (authorized_languages : List String) (confidence_threshold : Rat) :
    Bool × FlagReason :=
  if language ∉ authorized_languages then
    (true, .langMismatch language)
  else if confidence < confidence_threshold then
    (true, .lowConfidence confidence)
  else
    (false, .noFlag)

/-- Arithmetic mean of the sub-segment confidences returned by the
transcription call, `0` when none are returned (src/main.py lines 313-317). -/
def meanConf (cs : List Rat) : Rat :=
  if cs.isEmpty then 0 else cs.sum / cs.length

/-- `round(confidence, 4)` of the source (line 341/354), modelled as rational
half-up rounding; the flag decision uses the unrounded value, only the stored
report value is rounded. -/
def round4 (q : Rat) : Rat := (round (q * 10000) : Int) / 10000

/-! ### Batch orchestrator (src/main.py lines 144-476)

The external collaborators (audio decoding, `detect_nonsilent`, Whisper
transcription, clip export) are abstracted as data carried by a per-file
model; the orchestrator itself is embedded faithfully. -/

/-- Outcome of processing one interval: the transcription call succeeds
(text, detected language, per-sub-segment confidence list), raises inside the
per-segment `try` (caught as a transcription error, lines 361-374), or an
exception occurs outside that `try` (e.g. the temporary-file export on line
302), which propagates to the per-file handler (lines 420-428). -/
inductive SegStep
  | ok (text : String) (language : String) (confidences : List Rat)
  | transcribeErr (msg : String)
  | abort (msg : String)

/-- Model of one audio file together with the behaviour of the external
collaborators on it.  `decodeOk` stands for the body of the segmenter's `try`
(decoding and `detect_nonsilent`) succeeding; `rawIntervals` is the interval
list `detect_nonsilent` returns; `step i` is the outcome of processing the
i-th surviving interval; `exportOk j` is whether exporting the j-th merged
clip succeeds. -/
structure FileModel where
  filename : String
  decodeOk : Bool
  rawIntervals : List (Int × Int)
  step : Nat → SegStep
  exportOk : Nat → Bool

/-- `detect_speech_segments` (src/main.py lines 109-142): on success, the
collaborator's intervals filtered by minimum segment length; on any exception
(decode failure included) an empty list — never an error. -/
def detect_speech_segments (f : FileModel) (min_segment_len : Int) :
    List (Int × Int) :=
  if f.decodeOk then
    f.rawIntervals.filter (fun p => min_segment_len ≤ p.2 - p.1)
  else
    []

/-- One row of `all_segments_data` (the report). -/
structure ReportRow where
  filename : String
  startTime : Rat
  endTime : Rat
  transcription : String
  language : String
  confidence : Rat
  isFlagged : Bool
  flagReason : FlagReason
deriving DecidableEq

/-- The "no speech segments detected" placeholder row (lines 265-270). -/
def noSpeechRow (filename : String) : ReportRow :=
  { filename := filename, startTime := 0, endTime := 0,
    transcription := "NO SPEECH DETECTED", language := "N/A",
    confidence := 0, isFlagged := true, flagReason := .noSpeech }

/-- The file-level `"Processing Error: …"` placeholder row (lines 422-427). -/
def processingErrorRow (filename msg : String) : ReportRow :=
  { filename := filename, startTime := 0, endTime := 0,
    transcription := "ERROR DURING PROCESSING", language := "N/A",
    confidence := 0, isFlagged := true, flagReason := .processingError msg }

/-- The configuration parameters the embedded part of
`process_and_flag_audios` reads.  `hasCroppedFolder` is the truthiness of
`output_cropped_folder`. -/
structure Config where
  confidence_threshold : Rat
  min_segment_len : Int
  merge_flagged_segments : Bool
  hasCroppedFolder : Bool
  max_merge_gap_ms : Int
  authorized_languages : List String

/-- Result of the per-segment loop of one file: the rows appended, the
`total_segments` and `flagged_segments` increments, `file_segments_info`
(only successfully transcribed segments are appended to it), and the message
of the exception that escaped the per-segment `try`, if any. -/
structure SegLoopResult where
  rows : List ReportRow
  totalSegs : Nat
  flaggedSegs : Nat
  infos : List Segment
  aborted : Option String

/-- The per-segment loop (src/main.py lines 288-378) from interval index `i`
on.  A successful transcription is classified and recorded; an exception
inside the per-segment `try` records a flagged transcription-error row with
confidence 0 and continues; an exception outside it abandons the remaining
intervals and propagates (rows and counters already produced are kept). -/
def processSegments (cfg : Config) (f : FileModel) :
    Nat → List (Int × Int) → SegLoopResult
  | _, [] => ⟨[], 0, 0, [], none⟩
  | i, (start_ms, end_ms) :: rest =>
    match f.step i with
    | .abort msg => ⟨[], 0, 0, [], some msg⟩
    | .transcribeErr msg =>
      let row : ReportRow :=
        { filename := f.filename
          startTime := (start_ms : Rat) / 1000
          endTime := (end_ms : Rat) / 1000
          transcription := "ERROR DURING TRANSCRIPTION"
          language := "N/A"
          confidence := 0
          isFlagged := true
          flagReason := .transcriptionError msg }
      let r := processSegments cfg f (i + 1) rest
      ⟨row :: r.rows, r.totalSegs + 1, r.flaggedSegs + 1, r.infos, r.aborted⟩
    | .ok text language confs =>
      let confidence := meanConf confs
      let fl := classify language confidence cfg.authorized_languages
        cfg.confidence_threshold
      let row : ReportRow :=
        { filename := f.filename
          startTime := (start_ms : Rat) / 1000
          endTime := (end_ms : Rat) / 1000
          transcription := text
          language := language
          confidence := round4 confidence
          isFlagged := fl.1
          flagReason := if fl.1 then fl.2 else .noFlag }
      let r := processSegments cfg f (i + 1) rest
      ⟨row :: r.rows, r.totalSegs + 1, r.flaggedSegs + (if fl.1 then 1 else 0),
        ⟨start_ms, end_ms, fl.1⟩ :: r.infos, r.aborted⟩

/-- Per-file contribution to the report and the statistics counters. -/
structure FileOutcome where
  rows : List ReportRow
  succ : Nat
  failed : Nat
  totalSegs : Nat
  flaggedSegs : Nat
  mergedClips : Nat
deriving DecidableEq

/-- Per-file processing (src/main.py lines 248-428): run the segmenter; with
no surviving interval append the flagged no-speech row and count the file
failed; otherwise run the per-segment loop; if an exception escaped it append
the processing-error row and count the file failed; otherwise merge the
flagged segments, count the successfully exported merged clips, and count the
file successful (per-segment transcription errors notwithstanding). -/
def processFile (cfg : Config) (f : FileModel) : FileOutcome :=
  let segs := detect_speech_segments f cfg.min_segment_len
  if segs.isEmpty then
    ⟨[noSpeechRow f.filename], 0, 1, 0, 0, 0⟩
  else
    let r := processSegments cfg f 0 segs
    match r.aborted with
    | some msg =>
      ⟨r.rows ++ [processingErrorRow f.filename msg], 0, 1,
        r.totalSegs, r.flaggedSegs, 0⟩
    | none =>
      let clips :=
        if cfg.merge_flagged_segments && cfg.hasCroppedFolder then
          (List.range
            (merge_contiguous_segments r.infos cfg.max_merge_gap_ms).length).countP
            f.exportOk
        else 0
      ⟨r.rows, 1, 0, r.totalSegs, r.flaggedSegs, clips⟩

/-- The `processing_stats` dictionary. -/
structure Stats where
  total_files : Nat
  successful_files : Nat
  failed_files : Nat
  total_segments : Nat
  flagged_segments : Nat
  merged_clips : Nat
deriving DecidableEq

/-- The returned result: success flag, error message, the accumulated
`all_segments_data`, the statistics, and whether the report write was
reached.  (The source's failure returns omit the statistics dictionary; it is
carried here for the statements about the counters.) -/
structure BatchResult where
  success : Bool
  error : Option String
  rows : List ReportRow
  stats : Stats
  reportWritten : Bool
deriving DecidableEq

/-- `all_segments_data` of a batch: per-file rows, files in input order. -/
def batchRows (cfg : Config) (files : List FileModel) : List ReportRow :=
  (files.map (fun f => (processFile cfg f).rows)).flatten

/-- The accumulated statistics of a batch. -/
def batchStats (cfg : Config) (files : List FileModel) : Stats :=
  { total_files := files.length
    successful_files := (files.map (fun f => (processFile cfg f).succ)).sum
    failed_files := (files.map (fun f => (processFile cfg f).failed)).sum
    total_segments := (files.map (fun f => (processFile cfg f).totalSegs)).sum
    flagged_segments := (files.map (fun f => (processFile cfg f).flaggedSegs)).sum
    merged_clips := (files.map (fun f => (processFile cfg f).mergedClips)).sum }

/-- `process_and_flag_audios` from the point where the audio-file list is
known (line 219) to the returned result (line 476).  The environmental
batch-fatal cases before that point (missing input folder, model-load
failure) are outside this model.  The two in-scope batch failures are the
empty file list (lines 221-228) and empty `all_segments_data` (lines
433-440); on the success path the report write is reached (a write error on
line 450 is only logged and the result is still a success). -/
def process_and_flag_audios (cfg : Config) (files : List FileModel) :
    BatchResult :=
  if files.isEmpty then
    ⟨false, some "No audio files found", [], batchStats cfg files, false⟩
  else if (batchRows cfg files).isEmpty then
    ⟨false, some "No segments were processed from any audio files.",
      batchRows cfg files, batchStats cfg files, false⟩
  else
    ⟨true, none, batchRows cfg files, batchStats cfg files, true⟩

/-! ### Concrete fixtures for witnesses and counterexamples -/

/-- A configuration with the source's default parameter values. -/
def cfgEx : Config :=
  { confidence_threshold := 7/10, min_segment_len := 1000,
    merge_flagged_segments := true, hasCroppedFolder := true,
    max_merge_gap_ms := 1000, authorized_languages := ["en", "hi"] }

/-- A file that decodes and transcribes normally. -/
def fileOkA : FileModel :=
  { filename := "file1.wav", decodeOk := true, rawIntervals := [(0, 2000)],
    step := fun _ => .ok "hello there" "en" [9/10],
    exportOk := fun _ => true }

/-- A file whose decode throws: the segmenter's `try` fails. -/
def fileDecodeFail : FileModel :=
  { filename := "file2.wav", decodeOk := false, rawIntervals := [(0, 2000)],
    step := fun _ => .ok "unused" "en" [1], exportOk := fun _ => true }

/-- A second normally-processed file. -/
def fileOkB : FileModel :=
  { filename := "file3.wav", decodeOk := true, rawIntervals := [(500, 3000)],
    step := fun _ => .ok "bonjour" "fr" [8/10],
    exportOk := fun _ => true }

/-- A silent file: decoding succeeds but no interval survives filtering. -/
def fileNoSpeech : FileModel :=
  { filename := "silent.wav", decodeOk := true, rawIntervals := [(0, 300)],
    step := fun _ => .ok "unused" "en" [1], exportOk := fun _ => true }

/-- A file whose first interval's transcription throws and whose second
transcribes normally. -/
def fileTransErr : FileModel :=
  { filename := "flaky.wav", decodeOk := true,
    rawIntervals := [(0, 1500), (2000, 4000)],
    step := fun i => if i = 0 then .transcribeErr "boom" else .ok "hi" "en" [1],
    exportOk := fun _ => true }

/-- The partial-failure example batch: file 2's decode throws. -/
def batch3 : List FileModel := [fileOkA, fileDecodeFail, fileOkB]

lemma mergeRun_eq_map (g : Int) (rest grp : List (Nat × Segment)) :
    mergeRun g rest grp = (chunkRun g rest grp).map emitGroup := by
  induction rest generalizing grp with
  | nil => rfl
  | cons p rest ih =>
    simp only [mergeRun, chunkRun]
    split <;> simp [ih]

lemma chunkRun_flatten (g : Int) (rest grp : List (Nat × Segment)) :
    (chunkRun g rest grp).flatten = grp ++ rest := by
  induction rest generalizing grp with
  | nil => simp [chunkRun]
  | cons p rest ih =>
    simp only [chunkRun]
    split
    · rw [ih]; simp
    · simp only [List.flatten_cons, ih]; rfl

lemma chunkRun_ne_nil (g : Int) (rest grp : List (Nat × Segment)) (hg : grp ≠ [])
    {c : List (Nat × Segment)} (hc : c ∈ chunkRun g rest grp) : c ≠ [] := by
  induction rest generalizing grp with
  | nil =>
    simp only [chunkRun, List.mem_singleton] at hc
    exact hc ▸ hg
  | cons p rest ih =>
    simp only [chunkRun] at hc
    split at hc
    · exact ih _ (by simp) hc
    · rcases List.mem_cons.1 hc with h | h
      · exact h ▸ hg
      · exact ih _ (by simp) h

lemma chunkRun_list_ne_nil (g : Int) (rest grp : List (Nat × Segment)) :
    chunkRun g rest grp ≠ [] := by
  cases rest with
  | nil => simp [chunkRun]
  | cons p rest =>
    simp only [chunkRun]
    split
    · cases rest with
      | nil => simp [chunkRun]
      | cons q rest' =>
        simp only [chunkRun]
        split <;> simp_all [chunkRun_list_ne_nil]
    · simp

lemma chunkRun_head (g : Int) (rest grp : List (Nat × Segment)) (hg : grp ≠ []) :
    ((chunkRun g rest grp).headD []).headD dflt = grp.headD dflt := by
  induction rest generalizing grp with
  | nil => simp [chunkRun]
  | cons p rest ih =>
    simp only [chunkRun]
    split
    · rw [ih _ (by simp)]
      cases grp with
      | nil => exact absurd rfl hg
      | cons a t => simp
    · simp

lemma chunkRun_chain_inner (g : Int) (rest grp : List (Nat × Segment))
    (hg : List.Chain' (gapLE g) grp)
    {c : List (Nat × Segment)} (hc : c ∈ chunkRun g rest grp) :
    List.Chain' (gapLE g) c := by
  induction rest generalizing grp with
  | nil =>
    simp only [chunkRun, List.mem_singleton] at hc
    exact hc ▸ hg
  | cons p rest ih =>
    simp only [chunkRun] at hc
    split at hc
    · refine ih _ ?_ hc
      rw [List.chain'_append]
      refine ⟨hg, List.chain'_singleton _, ?_⟩
      intro x hx y hy
      simp only [List.head?_cons, Option.mem_def, Option.some.injEq] at hy
      subst hy
      have hx' : grp.getLastD dflt = x := by
        rw [List.getLastD_eq_getLast?, hx]
        rfl
      have hle := ‹p.2.start_ms - (grp.getLastD dflt).2.end_ms ≤ g›
      rw [hx'] at hle
      exact hle
    · rcases List.mem_cons.1 hc with h | h
      · exact h ▸ hg
      · exact ih _ (List.chain'_singleton _) h

lemma chunkRun_chain_between (g : Int) (rest grp : List (Nat × Segment)) (hg : grp ≠ []) :
    List.Chain' (chunkGapGT g) (chunkRun g rest grp) := by
  induction rest generalizing grp with
  | nil => simp [chunkRun]
  | cons p rest ih =>
    simp only [chunkRun]
    split
    · exact ih _ (by simp)
    · rw [List.chain'_cons']
      refine ⟨?_, ih [p] (by simp)⟩
      intro y hy
      have hne := chunkRun_list_ne_nil g rest [p]
      have hy' : (chunkRun g rest [p]).headD [] = y := by
        cases h : chunkRun g rest [p] with
        | nil => exact absurd h hne
        | cons c cs =>
          rw [h] at hy
          simp only [List.head?_cons, Option.mem_def, Option.some.injEq] at hy
          simp [hy]
      have hhead : y.headD dflt = p := by
        rw [← hy', chunkRun_head g rest [p] (by simp)]
        rfl
      simp only [chunkGapGT, hhead]
      omega

lemma merge_eq_chunks (l : List Segment) (g : Int) :
    merge_contiguous_segments l g = (mergeChunks l g).map emitGroup := by
  unfold merge_contiguous_segments mergeChunks
  cases sortedFlagged l with
  | nil => rfl
  | cons p rest => exact mergeRun_eq_map g rest [p]

lemma mergeChunks_flatten (l : List Segment) (g : Int) :
    (mergeChunks l g).flatten = sortedFlagged l := by
  unfold mergeChunks
  cases h : sortedFlagged l with
  | nil => rfl
  | cons p rest => rw [chunkRun_flatten]; rfl

lemma mergeChunks_chain_between (l : List Segment) (g : Int) :
    List.Chain' (chunkGapGT g) (mergeChunks l g) := by
  unfold mergeChunks
  cases sortedFlagged l with
  | nil => exact List.chain'_nil
  | cons p rest => exact chunkRun_chain_between g rest [p] (by simp)

lemma mergeChunks_mem_ne_nil (l : List Segment) (g : Int)
    {c : List (Nat × Segment)} (hc : c ∈ mergeChunks l g) : c ≠ [] := by
  unfold mergeChunks at hc
  revert hc
  cases sortedFlagged l with
  | nil => intro hc; cases hc
  | cons p rest => exact fun hc => chunkRun_ne_nil g rest [p] (by simp) hc

lemma sortedFlagged_perm (l : List Segment) :
    (sortedFlagged l).Perm ((l.enum).filter (fun p => p.2.is_flagged)) :=
  List.perm_insertionSort segLE _

lemma sortedFlagged_sorted (l : List Segment) :
    List.Sorted segLE (sortedFlagged l) :=
  List.sorted_insertionSort segLE _

lemma mergeChunks_mem_inner (l : List Segment) (g : Int)
    {c : List (Nat × Segment)} (hc : c ∈ mergeChunks l g) :
    List.Chain' (gapLE g) c := by
  unfold mergeChunks at hc
  revert hc
  cases sortedFlagged l with
  | nil => intro hc; cases hc
  | cons p rest => exact fun hc => chunkRun_chain_inner g rest [p] (List.chain'_singleton _) hc

/-- The filtered enumeration carries strictly increasing original indices. -/
lemma filter_enum_idx_lt (l : List Segment) :
    List.Pairwise (fun a b : Nat × Segment => a.1 < b.1)
      ((l.enum).filter (fun p => p.2.is_flagged)) := by
  have henum : List.Pairwise (fun a b : Nat × Segment => a.1 < b.1) l.enum := by
    have h := List.pairwise_lt_range l.length
    rw [← List.enum_map_fst l, List.pairwise_map] at h
    exact h
  exact henum.sublist (List.filter_sublist _)

lemma orderedInsert_stable (x : Nat × Segment) (m : List (Nat × Segment))
    (hs : List.Sorted segLE m) (hp : List.Pairwise stableLT m)
    (hx : ∀ b ∈ m, x.1 < b.1) :
    List.Pairwise stableLT (List.orderedInsert segLE x m) := by
  induction m with
  | nil => simp
  | cons b t ih =>
    by_cases h : segLE x b
    · rw [List.orderedInsert_of_le _ _ h]
      refine List.pairwise_cons.2 ⟨?_, hp⟩
      intro c hc
      have hxc : x.2.start_ms ≤ c.2.start_ms := by
        rcases List.mem_cons.1 hc with rfl | hct
        · exact h
        · exact le_trans h (List.rel_of_sorted_cons hs c hct)
      rcases lt_or_eq_of_le hxc with hlt | heq
      · exact Or.inl hlt
      · exact Or.inr ⟨heq, hx c hc⟩
    · simp only [List.orderedInsert, if_neg h]
      refine List.pairwise_cons.2 ⟨?_, ?_⟩
      · intro c hc
        rcases (List.mem_orderedInsert segLE).1 hc with rfl | hct
        · exact Or.inl (lt_of_not_le h)
        · exact (List.pairwise_cons.1 hp).1 c hct
      · exact ih hs.of_cons hp.of_cons (fun b' hb' => hx b' (List.mem_cons_of_mem _ hb'))

lemma insertionSort_stable (m : List (Nat × Segment))
    (h : List.Pairwise (fun a b : Nat × Segment => a.1 < b.1) m) :
    List.Pairwise stableLT (List.insertionSort segLE m) := by
  induction m with
  | nil => simp
  | cons x t ih =>
    simp only [List.insertionSort]
    refine orderedInsert_stable x _ (List.sorted_insertionSort segLE t) (ih h.of_cons) ?_
    intro b hb
    exact (List.pairwise_cons.1 h).1 b ((List.mem_insertionSort segLE).1 hb)

/-- Ties keep original order: the sorted flagged list is pairwise ordered by
strictly-smaller key, or equal key and strictly-smaller original index. -/
lemma sortedFlagged_stable (l : List Segment) :
    List.Pairwise stableLT (sortedFlagged l) :=
  insertionSort_stable _ (filter_enum_idx_lt l)

/-- C1: the merge considers only flagged segments, sorts them stably by
`start_ms` ascending, and walks them grouping by the chained-gap test (a
segment joins the open group exactly when its `start_ms` minus the `end_ms` of
the last segment added to the group is at most `max_gap_ms`); a closed group
is emitted as (first start, last end, constituent indices); the final group is
flushed.  The conjuncts: the walked list is a permutation of the flagged
subsequence with original indices; it is sorted by `start_ms`; ties keep
original order; the walk partitions it into non-empty groups whose inner
consecutive gaps pass the test and whose boundaries fail it; the output is
exactly the emitted groups; and the specification's example yields the two
groups (0,1800) and (5000,5500). -/
theorem merge_groups_by_chained_gap (l : List Segment) (g : Int) :
    (sortedFlagged l).Perm ((l.enum).filter (fun p => p.2.is_flagged)) ∧
    List.Sorted segLE (sortedFlagged l) ∧
    List.Pairwise stableLT (sortedFlagged l) ∧
    (mergeChunks l g).flatten = sortedFlagged l ∧
    merge_contiguous_segments l g = (mergeChunks l g).map emitGroup ∧
    (∀ c ∈ mergeChunks l g, c ≠ [] ∧ List.Chain' (gapLE g) c) ∧
    List.Chain' (chunkGapGT g) (mergeChunks l g) ∧
    merge_contiguous_segments exampleSegments 500 =
      [(0, 1800, [0, 1]), (5000, 5500, [2])] :=
  ⟨sortedFlagged_perm l, sortedFlagged_sorted l, sortedFlagged_stable l,
   mergeChunks_flatten l g, merge_eq_chunks l g,
   fun c hc => ⟨mergeChunks_mem_ne_nil l g hc, mergeChunks_mem_inner l g hc⟩,
   mergeChunks_chain_between l g, by decide⟩

/-- Witness for `merge_groups_by_chained_gap`: its group-membership hypothesis
discharged on the first group of the specification's example. -/
theorem merge_groups_by_chained_gap_witness :
    ([((0 : Nat), (⟨0, 1000, true⟩ : Segment)), (1, ⟨1200, 1800, true⟩)] ≠ [] ∧
      List.Chain' (gapLE 500)
        [((0 : Nat), (⟨0, 1000, true⟩ : Segment)), (1, ⟨1200, 1800, true⟩)]) ∧
    merge_contiguous_segments exampleSegments 500 =
      [(0, 1800, [0, 1]), (5000, 5500, [2])] := by
  have h := merge_groups_by_chained_gap exampleSegments 500
  have hmem :
      [((0 : Nat), (⟨0, 1000, true⟩ : Segment)), (1, ⟨1200, 1800, true⟩)] ∈
        mergeChunks exampleSegments 500 := by decide
  exact ⟨h.2.2.2.2.2.1 _ hmem, h.2.2.2.2.2.2.2⟩

lemma sortedFlagged_getD {l : List Segment} {p : Nat × Segment}
    (hp : p ∈ sortedFlagged l) : l.getD p.1 default = p.2 := by
  have hmem : p ∈ (l.enum).filter (fun q => q.2.is_flagged) :=
    (sortedFlagged_perm l).subset hp
  have henum : p ∈ l.enum := List.mem_of_mem_filter hmem
  have hget := List.mem_enum_iff_getElem?.1 henum
  rw [List.getD_eq_getElem?_getD, hget]
  rfl

lemma merge_flatMap_indices (l : List Segment) (g : Int) :
    (merge_contiguous_segments l g).flatMap (fun r => r.2.2)
      = (sortedFlagged l).map Prod.fst := by
  rw [merge_eq_chunks, List.flatMap_def, List.map_map, ← mergeChunks_flatten l g,
    List.map_flatten]
  rfl

/-- C10: the index lists of the emitted groups partition the flagged indices:
their concatenation is a permutation of the indices of the flagged segments
(so no unflagged index ever appears), it has no duplicate (so each flagged
index lies in exactly one group, once), and within each group the indices are
listed in ascending `start_ms` order of their segments. -/
theorem merge_indices_partition_flagged (l : List Segment) (g : Int) :
    ((merge_contiguous_segments l g).flatMap (fun r => r.2.2)).Perm
        (((l.enum).filter (fun p => p.2.is_flagged)).map Prod.fst) ∧
    ((merge_contiguous_segments l g).flatMap (fun r => r.2.2)).Nodup ∧
    ∀ r ∈ merge_contiguous_segments l g,
      List.Pairwise (fun i j => startAt l i ≤ startAt l j) r.2.2 := by
  have hperm :
      ((merge_contiguous_segments l g).flatMap (fun r => r.2.2)).Perm
        (((l.enum).filter (fun p => p.2.is_flagged)).map Prod.fst) := by
    rw [merge_flatMap_indices]
    exact (sortedFlagged_perm l).map Prod.fst
  refine ⟨hperm, ?_, ?_⟩
  · refine hperm.symm.nodup ?_
    have h := filter_enum_idx_lt l
    have : List.Pairwise (fun i j : Nat => i < j)
        (((l.enum).filter (fun p => p.2.is_flagged)).map Prod.fst) :=
      List.pairwise_map.2 h
    exact this.imp Nat.ne_of_lt
  · intro r hr
    rw [merge_eq_chunks] at hr
    obtain ⟨c, hc, rfl⟩ := List.mem_map.1 hr
    have hsorted := sortedFlagged_sorted l
    rw [← mergeChunks_flatten l g] at hsorted
    have hcpair : List.Pairwise segLE c := (List.pairwise_flatten.1 hsorted).1 c hc
    show List.Pairwise (fun i j => startAt l i ≤ startAt l j) (c.map Prod.fst)
    rw [List.pairwise_map]
    refine hcpair.imp_of_mem ?_
    intro a b ha hb hab
    have haf : a ∈ sortedFlagged l := by
      rw [← mergeChunks_flatten l g]
      exact List.mem_flatten.2 ⟨c, hc, ha⟩
    have hbf : b ∈ sortedFlagged l := by
      rw [← mergeChunks_flatten l g]
      exact List.mem_flatten.2 ⟨c, hc, hb⟩
    show startAt l a.1 ≤ startAt l b.1
    unfold startAt
    rw [sortedFlagged_getD haf, sortedFlagged_getD hbf]
    exact hab

/-- Witness for `merge_indices_partition_flagged`: the group-membership
hypothesis discharged on the first emitted group of the example. -/
theorem merge_indices_partition_flagged_witness :
    List.Pairwise
      (fun i j => startAt exampleSegments i ≤ startAt exampleSegments j)
      [0, 1] := by
  have h := merge_indices_partition_flagged exampleSegments 500
  have hmem : ((0 : Int), (1800 : Int), [(0 : Nat), 1]) ∈
      merge_contiguous_segments exampleSegments 500 := by decide
  exact h.2.2 _ hmem

lemma headD_mem {c : List (Nat × Segment)} (hc : c ≠ []) : c.headD dflt ∈ c := by
  cases c with
  | nil => exact absurd rfl hc
  | cons a t => exact List.mem_cons_self a t

lemma getLastD_mem {c : List (Nat × Segment)} (hc : c ≠ []) : c.getLastD dflt ∈ c := by
  cases c with
  | nil => exact absurd rfl hc
  | cons a t =>
    rw [List.getLastD_eq_getLast?, List.getLast?_eq_getLast (a :: t) (by simp)]
    exact List.getLast_mem _

/-- The emitted ranges appear with non-decreasing `start_ms`. -/
lemma merge_pairwise_start (l : List Segment) (g : Int) :
    List.Pairwise (fun a b : Int × Int × List Nat => a.1 ≤ b.1)
      (merge_contiguous_segments l g) := by
  rw [merge_eq_chunks, List.pairwise_map]
  have hs := sortedFlagged_sorted l
  rw [← mergeChunks_flatten l g] at hs
  have hcross := (List.pairwise_flatten.1 hs).2
  refine hcross.imp_of_mem ?_
  intro c d hc hd hcd
  have hcne := mergeChunks_mem_ne_nil l g hc
  have hdne := mergeChunks_mem_ne_nil l g hd
  exact hcd _ (headD_mem hcne) _ (headD_mem hdne)

/-- Consecutive emitted ranges are separated by more than `max_gap_ms`. -/
lemma merge_chain_sep (l : List Segment) (g : Int) :
    List.Chain' (fun a b : Int × Int × List Nat => b.1 - a.2.1 > g)
      (merge_contiguous_segments l g) := by
  rw [merge_eq_chunks, List.chain'_map]
  exact (mergeChunks_chain_between l g).imp (fun _ _ h => h)

lemma merge_eq_nil_of_sortedFlagged {l : List Segment} (g : Int)
    (h : sortedFlagged l = []) : merge_contiguous_segments l g = [] := by
  unfold merge_contiguous_segments
  rw [h]

lemma merge_eq_run_of_sortedFlagged {l : List Segment} (g : Int) {p : Nat × Segment}
    {rest : List (Nat × Segment)} (h : sortedFlagged l = p :: rest) :
    merge_contiguous_segments l g = mergeRun g rest [p] := by
  unfold merge_contiguous_segments
  rw [h]

/-- A run over segments that are pairwise separated by more than the gap
emits every segment as its own singleton group. -/
lemma mergeRun_separated (g : Int) (x : Nat × Segment) (rest : List (Nat × Segment))
    (h : List.Chain' (fun a b : Nat × Segment => b.2.start_ms - a.2.end_ms > g)
      (x :: rest)) :
    mergeRun g rest [x] = (x :: rest).map (fun q => (q.2.start_ms, q.2.end_ms, [q.1])) := by
  induction rest generalizing x with
  | nil => rfl
  | cons y t ih =>
    have hxy : y.2.start_ms - x.2.end_ms > g := (List.chain'_cons.1 h).1
    simp only [mergeRun]
    rw [if_neg (by simpa using Int.not_le.2 hxy)]
    rw [ih y (List.chain'_cons.1 h).2]
    rfl

/-- Merging a list of already-separated, start-sorted, all-flagged ranges
returns each range unchanged as its own group. -/
lemma merge_of_separated (rs : List (Int × Int)) (g : Int)
    (hsort : List.Pairwise (fun a b : Int × Int => a.1 ≤ b.1) rs)
    (hsep : List.Chain' (fun a b : Int × Int => b.1 - a.2 > g) rs) :
    merge_contiguous_segments (rs.map (fun p => ⟨p.1, p.2, true⟩)) g
      = rs.enum.map (fun q => (q.2.1, q.2.2, [q.1])) := by
  have hfl : ∀ a ∈ (rs.map (fun p : Int × Int => (⟨p.1, p.2, true⟩ : Segment))).enum,
      a.2.is_flagged = true := by
    intro a ha
    have h1 : a.2 ∈ rs.map (fun p : Int × Int => (⟨p.1, p.2, true⟩ : Segment)) := by
      rw [← List.enum_map_snd (rs.map (fun p : Int × Int => (⟨p.1, p.2, true⟩ : Segment)))]
      exact List.mem_map_of_mem Prod.snd ha
    obtain ⟨p, -, hp⟩ := List.mem_map.1 h1
    rw [← hp]
  have hfilter :
      ((rs.map (fun p : Int × Int => (⟨p.1, p.2, true⟩ : Segment))).enum).filter
        (fun p => p.2.is_flagged) =
      (rs.map (fun p : Int × Int => (⟨p.1, p.2, true⟩ : Segment))).enum :=
    List.filter_eq_self.2 (fun a ha => hfl a ha)
  have hpair :
      List.Pairwise segLE
        (rs.map (fun p : Int × Int => (⟨p.1, p.2, true⟩ : Segment))).enum := by
    have h1 : List.Pairwise (fun s t : Segment => s.start_ms ≤ t.start_ms)
        (rs.map (fun p : Int × Int => (⟨p.1, p.2, true⟩ : Segment))) :=
      List.pairwise_map.2 hsort
    have h2 := (List.pairwise_map
      (f := (Prod.snd : Nat × Segment → Segment))
      (R := fun s t : Segment => s.start_ms ≤ t.start_ms)
      (l := (rs.map (fun p : Int × Int => (⟨p.1, p.2, true⟩ : Segment))).enum))
    rw [List.enum_map_snd] at h2
    exact h2.1 h1
  have hsf : sortedFlagged (rs.map (fun p : Int × Int => (⟨p.1, p.2, true⟩ : Segment)))
      = (rs.map (fun p : Int × Int => (⟨p.1, p.2, true⟩ : Segment))).enum := by
    unfold sortedFlagged
    rw [hfilter]
    exact List.Sorted.insertionSort_eq hpair
  have hchain :
      List.Chain' (fun a b : Nat × Segment => b.2.start_ms - a.2.end_ms > g)
        (rs.map (fun p : Int × Int => (⟨p.1, p.2, true⟩ : Segment))).enum := by
    have h1 : List.Chain' (fun s t : Segment => t.start_ms - s.end_ms > g)
        (rs.map (fun p : Int × Int => (⟨p.1, p.2, true⟩ : Segment))) :=
      (List.chain'_map _).2 hsep
    have h2 := (List.chain'_map
      (f := (Prod.snd : Nat × Segment → Segment))
      (R := fun s t : Segment => t.start_ms - s.end_ms > g)
      (l := (rs.map (fun p : Int × Int => (⟨p.1, p.2, true⟩ : Segment))).enum))
    rw [List.enum_map_snd] at h2
    exact h2.1 h1
  cases henum : rs.enum with
  | nil =>
    have h0 : sortedFlagged (rs.map (fun p : Int × Int => (⟨p.1, p.2, true⟩ : Segment))) = [] := by
      rw [hsf, List.enum_map, henum]
      rfl
    rw [merge_eq_nil_of_sortedFlagged g h0]
    rfl
  | cons q qs =>
    have h1 : sortedFlagged (rs.map (fun p : Int × Int => (⟨p.1, p.2, true⟩ : Segment)))
        = Prod.map id (fun p : Int × Int => (⟨p.1, p.2, true⟩ : Segment)) q ::
          List.map (Prod.map id (fun p : Int × Int => (⟨p.1, p.2, true⟩ : Segment))) qs := by
      rw [hsf, List.enum_map, henum]
      rfl
    rw [merge_eq_run_of_sortedFlagged g h1]
    rw [mergeRun_separated g _ _
      (by rw [← List.map_cons, ← henum, ← List.enum_map]; exact hchain)]
    rw [← List.map_cons, List.map_map]
    rfl

lemma mergeRun_pair (g : Int) (x y : Nat × Segment) :
    mergeRun g [y] [x] =
      if y.2.start_ms - x.2.end_ms ≤ g then [emitGroup [x, y]]
      else [emitGroup [x], emitGroup [y]] := by
  show (if y.2.start_ms - x.2.end_ms ≤ g then mergeRun g [] [x, y]
        else emitGroup [x] :: mergeRun g [] [y]) = _
  split <;> rfl

/-- C4: merging is idempotent — feeding the produced ranges back in as flagged
segments with the same `max_gap_ms` reproduces the same `(start, end)` ranges;
zero flagged segments yield an empty result; a single flagged segment yields
one singleton group; and with `max_gap_ms = 0` two flagged segments merge
exactly when abutting or overlapping (gap at most 0). -/
theorem merge_idempotent_and_edge_cases :
    (∀ (l : List Segment) (g : Int),
      (merge_contiguous_segments
          ((merge_contiguous_segments l g).map
            (fun r => (⟨r.1, r.2.1, true⟩ : Segment))) g).map
          (fun r => (r.1, r.2.1)) =
        (merge_contiguous_segments l g).map (fun r => (r.1, r.2.1))) ∧
    (∀ (l : List Segment) (g : Int), (∀ s ∈ l, s.is_flagged = false) →
      merge_contiguous_segments l g = []) ∧
    (∀ (l : List Segment) (g : Int) (i : Nat) (s : Segment),
      (l.enum).filter (fun p => p.2.is_flagged) = [(i, s)] →
      merge_contiguous_segments l g = [(s.start_ms, s.end_ms, [i])]) ∧
    (∀ a b : Segment, a.is_flagged = true → b.is_flagged = true →
      a.start_ms ≤ b.start_ms →
      (b.start_ms ≤ a.end_ms →
        merge_contiguous_segments [a, b] 0 = [(a.start_ms, b.end_ms, [0, 1])]) ∧
      (a.end_ms < b.start_ms →
        merge_contiguous_segments [a, b] 0 =
          [(a.start_ms, a.end_ms, [0]), (b.start_ms, b.end_ms, [1])])) := by
  refine ⟨?_, ?_, ?_, ?_⟩
  · intro l g
    have hsort : List.Pairwise (fun a b : Int × Int => a.1 ≤ b.1)
        ((merge_contiguous_segments l g).map (fun r => (r.1, r.2.1))) :=
      List.pairwise_map.2 (merge_pairwise_start l g)
    have hsep : List.Chain' (fun a b : Int × Int => b.1 - a.2 > g)
        ((merge_contiguous_segments l g).map (fun r => (r.1, r.2.1))) :=
      (List.chain'_map _).2 (merge_chain_sep l g)
    have h := merge_of_separated _ g hsort hsep
    rw [List.map_map] at h
    have h2 := congrArg (List.map (fun r : Int × Int × List Nat => (r.1, r.2.1))) h
    rw [List.map_map] at h2
    exact h2.trans (List.enum_map_snd _)
  · intro l g hflag
    have h0 : (l.enum).filter (fun p => p.2.is_flagged) = [] := by
      rw [List.filter_eq_nil_iff]
      intro a ha
      have h1 : a.2 ∈ l := by
        rw [← List.enum_map_snd l]
        exact List.mem_map_of_mem Prod.snd ha
      simp [hflag a.2 h1]
    refine merge_eq_nil_of_sortedFlagged g ?_
    unfold sortedFlagged
    rw [h0]
    rfl
  · intro l g i s hfil
    have hsf : sortedFlagged l = [(i, s)] := by
      unfold sortedFlagged
      rw [hfil]
      rfl
    rw [merge_eq_run_of_sortedFlagged g hsf]
    rfl
  · intro a b ha hb hab
    have hfil : (([a, b]).enum).filter (fun p => p.2.is_flagged)
        = [(0, a), (1, b)] := by
      simp [List.enum, List.enumFrom, List.filter, ha, hb]
    have hsf : sortedFlagged [a, b] = [(0, a), (1, b)] := by
      unfold sortedFlagged
      rw [hfil]
      refine List.Sorted.insertionSort_eq ?_
      simp only [List.sorted_cons, List.mem_singleton, List.not_mem_nil]
      exact ⟨fun c hc => by subst hc; exact hab, fun c hf => hf.elim, List.sorted_nil⟩
    rw [merge_eq_run_of_sortedFlagged 0 hsf, mergeRun_pair]
    constructor
    · intro hble
      rw [if_pos (show b.start_ms - a.end_ms ≤ 0 by omega)]
      rfl
    · intro hblt
      rw [if_neg (show ¬(b.start_ms - a.end_ms ≤ 0) by omega)]
      rfl

/-- Witness for `merge_idempotent_and_edge_cases`: each hypothesised edge-case
conjunct discharged on a concrete input. -/
theorem merge_idempotent_and_edge_cases_witness :
    merge_contiguous_segments [⟨0, 1000, false⟩] 7 = [] ∧
    merge_contiguous_segments [⟨0, 1000, false⟩, ⟨2000, 2500, true⟩] 7 =
      [(2000, 2500, [1])] ∧
    merge_contiguous_segments [⟨0, 1000, true⟩, ⟨1000, 1500, true⟩] 0 =
      [(0, 1500, [0, 1])] ∧
    merge_contiguous_segments [⟨0, 1000, true⟩, ⟨1001, 1500, true⟩] 0 =
      [(0, 1000, [0]), (1001, 1500, [1])] := by
  have h := merge_idempotent_and_edge_cases
  exact ⟨h.2.1 _ 7 (by decide),
    h.2.2.1 _ 7 1 ⟨2000, 2500, true⟩ (by decide),
    (h.2.2.2 ⟨0, 1000, true⟩ ⟨1000, 1500, true⟩ (by decide) (by decide) (by decide)).1
      (by decide),
    (h.2.2.2 ⟨0, 1000, true⟩ ⟨1001, 1500, true⟩ (by decide) (by decide) (by decide)).2
      (by decide)⟩

/-- C2: the classifier evaluates in fixed order — an unauthorized detected
language is flagged as a language mismatch carrying the language, regardless
of confidence (so never low-confidence); otherwise a confidence strictly
below the threshold is flagged low-confidence carrying the score; otherwise
the segment is unflagged. -/
theorem classify_fixed_order (language : String) (confidence : Rat)
    (auth : List String) (threshold : Rat) :
    (language ∉ auth →
      classify language confidence auth threshold =
        (true, .langMismatch language)) ∧
    (language ∈ auth → confidence < threshold →
      classify language confidence auth threshold =
        (true, .lowConfidence confidence)) ∧
    (language ∈ auth → threshold ≤ confidence →
      classify language confidence auth threshold = (false, .noFlag)) := by
  unfold classify
  refine ⟨fun h => ?_, fun h hc => ?_, fun h hc => ?_⟩
  · rw [if_pos h]
  · rw [if_neg (not_not_intro h), if_pos hc]
  · rw [if_neg (not_not_intro h), if_neg (not_lt.2 hc)]

/-- Witness for `classify_fixed_order`: all three branches at concrete
inputs; in particular an unauthorized language with high confidence is a
language mismatch, not low confidence. -/
theorem classify_fixed_order_witness :
    classify "fr" (9/10) ["en", "hi"] (7/10) =
      (true, .langMismatch "fr") ∧
    classify "en" (1/2) ["en", "hi"] (7/10) =
      (true, .lowConfidence (1/2)) ∧
    classify "en" (9/10) ["en", "hi"] (7/10) = (false, .noFlag) :=
  ⟨(classify_fixed_order "fr" (9/10) ["en", "hi"] (7/10)).1 (by decide),
   (classify_fixed_order "en" (1/2) ["en", "hi"] (7/10)).2.1 (by decide) (by norm_num),
   (classify_fixed_order "en" (9/10) ["en", "hi"] (7/10)).2.2 (by decide) (by norm_num)⟩

/-- C3: for an authorized language the threshold is inclusive at the
boundary — confidence exactly equal to the threshold is not flagged, and any
confidence `threshold - ε` with `ε > 0` is flagged low-confidence. -/
theorem confidence_boundary_inclusive (language : String) (auth : List String)
    (threshold : Rat) (hmem : language ∈ auth) :
    classify language threshold auth threshold = (false, .noFlag) ∧
    (∀ ε : Rat, 0 < ε →
      classify language (threshold - ε) auth threshold =
        (true, .lowConfidence (threshold - ε))) := by
  constructor
  · unfold classify
    rw [if_neg (not_not_intro hmem), if_neg (lt_irrefl threshold)]
  · intro ε hε
    unfold classify
    rw [if_neg (not_not_intro hmem), if_pos (by linarith)]

/-- Witness for `confidence_boundary_inclusive` at the default threshold. -/
theorem confidence_boundary_inclusive_witness :
    classify "en" (7/10) ["en", "hi"] (7/10) = (false, .noFlag) ∧
    classify "en" (7/10 - 1/10) ["en", "hi"] (7/10) =
      (true, .lowConfidence (7/10 - 1/10)) := by
  have h := confidence_boundary_inclusive "en" ["en", "hi"] (7/10) (by decide)
  exact ⟨h.1, h.2 (1/10) (by norm_num)⟩

/-- C9: the segmenter drops exactly the intervals whose length is strictly
below `min_segment_len`, keeps the survivors in their original order (a
sublist of the collaborator's output), and returns an empty list — not an
error — when decoding fails or when no interval survives the filter. -/
theorem detect_filters_and_never_errors (f : FileModel) (m : Int) :
    (f.decodeOk = true →
      (detect_speech_segments f m).Sublist f.rawIntervals ∧
      ∀ p : Int × Int, p ∈ detect_speech_segments f m ↔
        p ∈ f.rawIntervals ∧ m ≤ p.2 - p.1) ∧
    (f.decodeOk = false → detect_speech_segments f m = []) ∧
    ((∀ p ∈ f.rawIntervals, p.2 - p.1 < m) →
      detect_speech_segments f m = []) := by
  refine ⟨fun h => ?_, fun h => ?_, fun h => ?_⟩
  · unfold detect_speech_segments
    rw [if_pos h]
    refine ⟨List.filter_sublist _, fun p => ?_⟩
    rw [List.mem_filter]
    simp
  · unfold detect_speech_segments
    rw [if_neg (by simp [h])]
  · unfold detect_speech_segments
    split
    · rw [List.filter_eq_nil_iff]
      intro p hp
      simpa using not_le.2 (h p hp)
    · rfl

/-- Witness for `detect_filters_and_never_errors`: a decoded file keeps only
its long-enough interval; a failed decode yields the empty list. -/
theorem detect_filters_and_never_errors_witness :
    (detect_speech_segments fileNoSpeech 1000).Sublist fileNoSpeech.rawIntervals ∧
    ((0, 2000) ∈ detect_speech_segments fileOkA 1000 ↔
      (0, 2000) ∈ fileOkA.rawIntervals ∧ (1000 : Int) ≤ 2000 - 0) ∧
    detect_speech_segments fileDecodeFail 1000 = [] ∧
    detect_speech_segments fileNoSpeech 1000 = [] := by
  exact ⟨((detect_filters_and_never_errors fileNoSpeech 1000).1 (by decide)).1,
    ((detect_filters_and_never_errors fileOkA 1000).1 (by decide)).2 (0, 2000),
    (detect_filters_and_never_errors fileDecodeFail 1000).2.1 (by decide),
    (detect_filters_and_never_errors fileNoSpeech 1000).2.2 (by decide)⟩

lemma batchRows_cons (cfg : Config) (f : FileModel) (fs : List FileModel) :
    batchRows cfg (f :: fs) = (processFile cfg f).rows ++ batchRows cfg fs := by
  unfold batchRows
  rw [List.map_cons, List.flatten_cons]

lemma batchRows_append (cfg : Config) (l1 l2 : List FileModel) :
    batchRows cfg (l1 ++ l2) = batchRows cfg l1 ++ batchRows cfg l2 := by
  unfold batchRows
  rw [List.map_append, List.flatten_append]

lemma batchRows_splice (cfg : Config) (before after : List FileModel)
    (f : FileModel) :
    batchRows cfg (before ++ f :: after) =
      batchRows cfg before ++ (processFile cfg f).rows ++ batchRows cfg after := by
  rw [batchRows_append, batchRows_cons, List.append_assoc]

lemma batchStats_failed_splice (cfg : Config) (before after : List FileModel)
    (f : FileModel) :
    (batchStats cfg (before ++ f :: after)).failed_files =
      (batchStats cfg before).failed_files + (processFile cfg f).failed +
        (batchStats cfg after).failed_files := by
  simp [batchStats, List.sum_append]
  omega

lemma batchStats_succ_splice (cfg : Config) (before after : List FileModel)
    (f : FileModel) :
    (batchStats cfg (before ++ f :: after)).successful_files =
      (batchStats cfg before).successful_files + (processFile cfg f).succ +
        (batchStats cfg after).successful_files := by
  simp [batchStats, List.sum_append]
  omega

/-- A file with no surviving interval takes the no-speech branch. -/
lemma processFile_of_no_segments (cfg : Config) (f : FileModel)
    (h : detect_speech_segments f cfg.min_segment_len = []) :
    processFile cfg f = ⟨[noSpeechRow f.filename], 0, 1, 0, 0, 0⟩ := by
  unfold processFile
  rw [h]
  rfl

/-- C6: a file whose segmenter run yields zero intervals contributes exactly
one report row — the flagged no-speech placeholder — is counted failed, and
the batch continues: the surrounding files' rows and counters are unaffected
by it. -/
theorem no_speech_file_one_flagged_row (cfg : Config) (f : FileModel)
    (h : detect_speech_segments f cfg.min_segment_len = []) :
    processFile cfg f = ⟨[noSpeechRow f.filename], 0, 1, 0, 0, 0⟩ ∧
    (noSpeechRow f.filename).isFlagged = true ∧
    (noSpeechRow f.filename).flagReason = .noSpeech ∧
    ∀ before after : List FileModel,
      batchRows cfg (before ++ f :: after) =
        batchRows cfg before ++ noSpeechRow f.filename :: batchRows cfg after ∧
      (batchStats cfg (before ++ f :: after)).failed_files =
        (batchStats cfg before).failed_files + 1 +
          (batchStats cfg after).failed_files := by
  have hpf := processFile_of_no_segments cfg f h
  refine ⟨hpf, rfl, rfl, fun before after => ⟨?_, ?_⟩⟩
  · rw [batchRows_splice, hpf]
    simp
  · rw [batchStats_failed_splice, hpf]

/-- Witness for `no_speech_file_one_flagged_row` on the silent fixture. -/
theorem no_speech_file_one_flagged_row_witness :
    processFile cfgEx fileNoSpeech =
      ⟨[noSpeechRow "silent.wav"], 0, 1, 0, 0, 0⟩ ∧
    batchRows cfgEx [fileNoSpeech] =
      [noSpeechRow "silent.wav"] := by
  have h := no_speech_file_one_flagged_row cfgEx fileNoSpeech (by decide)
  refine ⟨h.1, ?_⟩
  have h2 := (h.2.2.2 [] []).1
  simpa using h2

/-- Counterexample to C5 as stated: in the 3-file batch whose second file's
decode throws, that file's single failure row carries the no-speech reason —
`detect_speech_segments` catches the decode exception and returns an empty
list, so the orchestrator takes the no-speech branch — and no row of the
batch carries a processing-error reason. -/
theorem decode_failure_not_processing_error_row :
    fileDecodeFail.decodeOk = false ∧
    (processFile cfgEx fileDecodeFail).rows = [noSpeechRow "file2.wav"] ∧
    (noSpeechRow "file2.wav").flagReason = FlagReason.noSpeech ∧
    ((processFile cfgEx fileDecodeFail).rows.all
      (fun r => !r.flagReason.isProcessingError)) = true := by
  refine ⟨rfl, ?_, rfl, ?_⟩
  · exact congrArg FileOutcome.rows (processFile_of_no_segments cfgEx fileDecodeFail (by decide))
  · rw [congrArg FileOutcome.rows (processFile_of_no_segments cfgEx fileDecodeFail (by decide))]
    rfl

/-- C5 (amended): a decode failure is caught inside the segmenter, which
returns no intervals, so the orchestrator appends exactly one failure row for
the file — the flagged no-speech placeholder, not a processing-error row —
counts the file failed without attempting segmentation, and continues with
the remaining files; in the 3-file example batch, `failed_files = 1` and
`successful_files = 2`. -/
theorem decode_failure_takes_no_speech_path (cfg : Config) (f : FileModel)
    (h : f.decodeOk = false) :
    detect_speech_segments f cfg.min_segment_len = [] ∧
    processFile cfg f = ⟨[noSpeechRow f.filename], 0, 1, 0, 0, 0⟩ ∧
    (∀ before after : List FileModel,
      batchRows cfg (before ++ f :: after) =
        batchRows cfg before ++ noSpeechRow f.filename :: batchRows cfg after ∧
      (batchStats cfg (before ++ f :: after)).failed_files =
        (batchStats cfg before).failed_files + 1 +
          (batchStats cfg after).failed_files ∧
      (batchStats cfg (before ++ f :: after)).successful_files =
        (batchStats cfg before).successful_files +
          (batchStats cfg after).successful_files) ∧
    (batchStats cfgEx batch3).failed_files = 1 ∧
    (batchStats cfgEx batch3).successful_files = 2 := by
  have hdet : detect_speech_segments f cfg.min_segment_len = [] := by
    unfold detect_speech_segments
    rw [if_neg (by simp [h])]
  have hpf := processFile_of_no_segments cfg f hdet
  refine ⟨hdet, hpf, fun before after => ⟨?_, ?_, ?_⟩, by decide, by decide⟩
  · rw [batchRows_splice, hpf]
    simp
  · rw [batchStats_failed_splice, hpf]
  · rw [batchStats_succ_splice, hpf]
    simp

/-- Witness for `decode_failure_takes_no_speech_path` on the example batch:
file 2 contributes exactly its no-speech row between the rows of files 1 and
3, and the counters match the example. -/
theorem decode_failure_takes_no_speech_path_witness :
    batchRows cfgEx batch3 =
      batchRows cfgEx [fileOkA] ++ noSpeechRow "file2.wav" ::
        batchRows cfgEx [fileOkB] ∧
    (batchStats cfgEx batch3).failed_files = 1 ∧
    (batchStats cfgEx batch3).successful_files = 2 := by
  have h := decode_failure_takes_no_speech_path cfgEx fileDecodeFail rfl
  exact ⟨(h.2.2.1 [fileOkA] [fileOkB]).1, h.2.2.2.1, h.2.2.2.2⟩

/-- When no per-segment step escapes the `try`, the loop never aborts, each
interval yields exactly one row, and a transcription error at interval `k`
yields, at position `k`, the flagged error row with confidence 0. -/
lemma processSegments_no_abort (cfg : Config) (f : FileModel)
    (ivs : List (Int × Int)) (i0 : Nat)
    (h : ∀ k msg, k < ivs.length → f.step (i0 + k) ≠ .abort msg) :
    (processSegments cfg f i0 ivs).aborted = none ∧
    (processSegments cfg f i0 ivs).rows.length = ivs.length ∧
    ∀ k msg iv, f.step (i0 + k) = .transcribeErr msg → ivs[k]? = some iv →
      (processSegments cfg f i0 ivs).rows[k]? = some
        { filename := f.filename, startTime := (iv.1 : Rat) / 1000,
          endTime := (iv.2 : Rat) / 1000,
          transcription := "ERROR DURING TRANSCRIPTION", language := "N/A",
          confidence := 0, isFlagged := true,
          flagReason := .transcriptionError msg } := by
  induction ivs generalizing i0 with
  | nil =>
    refine ⟨rfl, rfl, fun k msg iv _ hiv => ?_⟩
    simp at hiv
  | cons iv0 rest ih =>
    obtain ⟨s, e⟩ := iv0
    have hih := ih (i0 + 1) (fun k msg hk => by
      have h2 := h (k + 1) msg (by simpa using Nat.succ_lt_succ hk)
      rw [show i0 + (k + 1) = i0 + 1 + k from by omega] at h2
      exact h2)
    cases hstep : f.step i0 with
    | abort msg =>
      exact absurd hstep (by simpa using h 0 msg (by simp))
    | transcribeErr msg =>
      refine ⟨?_, ?_, ?_⟩
      · simp [processSegments, hstep, hih.1]
      · simp [processSegments, hstep, hih.2.1]
      · intro k msg' iv hk hiv
        cases k with
        | zero =>
          rw [Nat.add_zero, hstep] at hk
          injection hk with hmsg
          subst hmsg
          simp only [List.getElem?_cons_zero, Option.some.injEq] at hiv
          subst hiv
          simp [processSegments, hstep]
        | succ k =>
          have h2 : f.step (i0 + 1 + k) = .transcribeErr msg' := by
            rw [show i0 + 1 + k = i0 + (k + 1) from by omega]
            exact hk
          have h3 := hih.2.2 k msg' iv h2 (by simpa using hiv)
          simpa [processSegments, hstep] using h3
    | ok text lang confs =>
      refine ⟨?_, ?_, ?_⟩
      · simp [processSegments, hstep, hih.1]
      · simp [processSegments, hstep, hih.2.1]
      · intro k msg' iv hk hiv
        cases k with
        | zero =>
          rw [Nat.add_zero, hstep] at hk
          exact SegStep.noConfusion hk
        | succ k =>
          have h2 : f.step (i0 + 1 + k) = .transcribeErr msg' := by
            rw [show i0 + 1 + k = i0 + (k + 1) from by omega]
            exact hk
          have h3 := hih.2.2 k msg' iv h2 (by simpa using hiv)
          simpa [processSegments, hstep] using h3

/-- A file with intervals whose per-segment loop never aborts is marked
successful with exactly the loop's rows. -/
lemma processFile_no_abort (cfg : Config) (f : FileModel)
    (hne : detect_speech_segments f cfg.min_segment_len ≠ [])
    (hab : (processSegments cfg f 0
      (detect_speech_segments f cfg.min_segment_len)).aborted = none) :
    (processFile cfg f).succ = 1 ∧ (processFile cfg f).failed = 0 ∧
    (processFile cfg f).rows =
      (processSegments cfg f 0 (detect_speech_segments f cfg.min_segment_len)).rows := by
  unfold processFile
  cases hd : detect_speech_segments f cfg.min_segment_len with
  | nil => exact absurd hd hne
  | cons a t =>
    rw [hd] at hab
    simp [hd, hab]

/-- C7: an exception from the transcription step is caught per-segment — the
interval gets a flagged transcription-error row with confidence 0 at its own
position, every interval still yields exactly one row, and the file is marked
successful (and not failed) no matter how many such errors occurred, as long
as nothing escapes the per-segment `try`. -/
theorem transcription_error_isolated (cfg : Config) (f : FileModel)
    (hnab : ∀ i msg, f.step i ≠ .abort msg)
    (hne : detect_speech_segments f cfg.min_segment_len ≠ []) :
    (processFile cfg f).succ = 1 ∧
    (processFile cfg f).failed = 0 ∧
    (processFile cfg f).rows.length =
      (detect_speech_segments f cfg.min_segment_len).length ∧
    ∀ k msg iv, f.step k = .transcribeErr msg →
      (detect_speech_segments f cfg.min_segment_len)[k]? = some iv →
      (processFile cfg f).rows[k]? = some
        { filename := f.filename, startTime := (iv.1 : Rat) / 1000,
          endTime := (iv.2 : Rat) / 1000,
          transcription := "ERROR DURING TRANSCRIPTION", language := "N/A",
          confidence := 0, isFlagged := true,
          flagReason := .transcriptionError msg } := by
  have hps := processSegments_no_abort cfg f
    (detect_speech_segments f cfg.min_segment_len) 0
    (fun k msg _ => by rw [Nat.zero_add]; exact hnab k msg)
  have hpf := processFile_no_abort cfg f hne hps.1
  refine ⟨hpf.1, hpf.2.1, ?_, ?_⟩
  · rw [hpf.2.2]
    exact hps.2.1
  · intro k msg iv hk hiv
    rw [hpf.2.2]
    exact hps.2.2 k msg iv (by rw [Nat.zero_add]; exact hk) hiv

/-- Witness for `transcription_error_isolated` on the flaky fixture: the
first interval's transcription throws, its row is the flagged error row with
confidence 0, and the file is still successful. -/
theorem transcription_error_isolated_witness :
    (processFile cfgEx fileTransErr).succ = 1 ∧
    (processFile cfgEx fileTransErr).failed = 0 ∧
    (processFile cfgEx fileTransErr).rows.length = 2 ∧
    (processFile cfgEx fileTransErr).rows[0]? = some
      { filename := "flaky.wav", startTime := ((0 : Int) : Rat) / 1000,
        endTime := ((1500 : Int) : Rat) / 1000,
        transcription := "ERROR DURING TRANSCRIPTION", language := "N/A",
        confidence := 0, isFlagged := true,
        flagReason := .transcriptionError "boom" } := by
  have hnab : ∀ i msg, fileTransErr.step i ≠ SegStep.abort msg := by
    intro i msg hcon
    simp only [fileTransErr] at hcon
    split at hcon <;> cases hcon
  have h := transcription_error_isolated cfgEx fileTransErr hnab (by decide)
  exact ⟨h.1, h.2.1, by rw [h.2.2.1]; decide,
    h.2.2.2 0 "boom" (0, 1500) rfl (by decide)⟩

/-- Every processed file contributes at least one report row: the no-speech
placeholder, the per-interval rows, or the processing-error placeholder. -/
lemma processFile_rows_ne_nil (cfg : Config) (f : FileModel) :
    (processFile cfg f).rows ≠ [] := by
  unfold processFile
  cases hd : detect_speech_segments f cfg.min_segment_len with
  | nil => simp
  | cons iv rest =>
    obtain ⟨s, e⟩ := iv
    cases habort : (processSegments cfg f 0 ((s, e) :: rest)).aborted with
    | some msg => simp [habort]
    | none =>
      cases hstep : f.step 0 with
      | abort msg => rw [processSegments, hstep] at habort; cases habort
      | transcribeErr msg =>
        simp [habort, processSegments, hstep]
        cases (processSegments cfg f 1 rest).aborted <;> simp
      | ok text lang confs =>
        simp [habort, processSegments, hstep]
        cases (processSegments cfg f 1 rest).aborted <;> simp

lemma batchRows_ne_nil (cfg : Config) (f : FileModel) (fs : List FileModel) :
    batchRows cfg (f :: fs) ≠ [] := by
  rw [batchRows_cons]
  simp [processFile_rows_ne_nil cfg f]

/-- C8: the modelled run returns a structured failure (success `false`, an
error message, report not written) exactly when zero audio files were found
or zero report rows were produced across all files — and since every
processed file contributes at least one row, those two coincide; any
non-empty batch, however many of its individual files fail, completes with
success and reaches the report write. -/
theorem batch_fails_iff_no_files_or_no_rows (cfg : Config)
    (files : List FileModel) :
    ((process_and_flag_audios cfg files).success = false ↔
      (files = [] ∨ batchRows cfg files = [])) ∧
    (batchRows cfg files = [] ↔ files = []) ∧
    ((process_and_flag_audios cfg files).reportWritten =
      (process_and_flag_audios cfg files).success) ∧
    ((process_and_flag_audios cfg files).success = false →
      (process_and_flag_audios cfg files).error.isSome = true) ∧
    (files ≠ [] →
      (process_and_flag_audios cfg files).success = true ∧
      (process_and_flag_audios cfg files).rows = batchRows cfg files) := by
  have hrows : batchRows cfg files = [] ↔ files = [] := by
    constructor
    · intro h0
      cases files with
      | nil => rfl
      | cons f fs => exact absurd h0 (batchRows_ne_nil cfg f fs)
    · intro h0
      subst h0
      rfl
  cases files with
  | nil =>
    exact ⟨by simp [process_and_flag_audios], hrows,
      by simp [process_and_flag_audios], by simp [process_and_flag_audios],
      fun h => absurd rfl h⟩
  | cons f fs =>
    have hne : batchRows cfg (f :: fs) ≠ [] := batchRows_ne_nil cfg f fs
    have hres : process_and_flag_audios cfg (f :: fs) =
        ⟨true, none, batchRows cfg (f :: fs), batchStats cfg (f :: fs), true⟩ := by
      unfold process_and_flag_audios
      rw [if_neg (by simp), if_neg (by simpa using hne)]
    refine ⟨?_, hrows, ?_, ?_, fun _ => ⟨?_, ?_⟩⟩
    · rw [hres]
      simp [hne]
    · rw [hres]
    · rw [hres]
      intro hcon
      cases hcon
    · rw [hres]
    · rw [hres]

/-- Witness for `batch_fails_iff_no_files_or_no_rows`: the empty batch fails
with an error message and no report; a batch whose only file fails outright
still succeeds and reaches the report write. -/
theorem batch_fails_iff_no_files_or_no_rows_witness :
    (process_and_flag_audios cfgEx []).success = false ∧
    (process_and_flag_audios cfgEx []).error.isSome = true ∧
    (process_and_flag_audios cfgEx []).reportWritten = false ∧
    (process_and_flag_audios cfgEx [fileDecodeFail]).success = true ∧
    (process_and_flag_audios cfgEx [fileDecodeFail]).rows =
      batchRows cfgEx [fileDecodeFail] := by
  have h0 := batch_fails_iff_no_files_or_no_rows cfgEx []
  have h1 := batch_fails_iff_no_files_or_no_rows cfgEx [fileDecodeFail]
  have hfail : (process_and_flag_audios cfgEx []).success = false :=
    h0.1.2 (Or.inl rfl)
  have hsucc := h1.2.2.2.2 (List.cons_ne_nil _ _)
  refine ⟨hfail, h0.2.2.2.1 hfail, ?_, hsucc.1, hsucc.2⟩
  rw [h0.2.2.1, hfail]

end ULC
